import Mathlib

/-!
Shallow embedding of the `vglog` logging package (Go) and verification of
its specification claims.

Source files embedded: `buffer.go` (scratch-buffer pool and digit
formatting), `file.go` (the rotating file sink `syncBuffer`), and the
logger coordinator file (severity gate, `formatHeader`, `createFiles`,
`output`, `SetLogDir`/`SetLogName`/`SetSeverityLimit`/`SetMaxSize`,
`Flush`).

Modelling conventions:
- byte sequences are `List Char` (`Bytes`); the code only moves opaque
  byte slices around, so the element type is irrelevant;
- a Go panic (method call on a nil interface, out-of-range index) is the
  `Outcome.panicked` result, and the state at the moment of the panic is
  preserved (mutations made before the panic persist on the shared
  logger, exactly as in Go, where a caller may `recover`);
- blocking forever on an already-locked mutex is `Outcome.blocked`;
- ambient inputs of the real code (wall clock, `runtime.Caller`,
  executable path resolution, the banner text produced by
  `fmt.Fprintf`, and whether `os.OpenFile` succeeds) are fields of an
  environment record `Env`;
- the OS-level effect of closing a file is recorded in the ledger
  `Logger.closedFiles` (the content the file holds at close time), so
  that "flushed before closed" and "never closed" are observable.
-/

namespace VGLog

abbrev Bytes := List Char

/-! ## Severity (logger source, lines 15-45) -/

abbrev Severity := Int

def SeverityDebug : Severity := 0
def SeverityInfo : Severity := 1
def SeverityWarning : Severity := 2
def SeverityError : Severity := 3
def severityCount : Severity := 4

/-! ## Digit formatting (buffer.go, lines 8-51) -/

def digits : String := "0123456789"

/-- One digit character: `digits[d%10]`. -/
def digitChar (d : Nat) : Char := digits.toList.getD (d % 10) '0'

/-- `buffer.twoDigits`: zero-prefixed two-digit integer,
`[digits[(d/10)%10], digits[d%10]]`. -/
def twoDigits (d : Nat) : Bytes := [digitChar (d / 10), digitChar d]

/-- `buffer.nDigits`: an `n`-digit field, filled with the low decimal
digits of `d` from the right, padded with `pad` on the left (the source
loop writes `digits[d%10]` at position `i+j` while `d > 0`, then pads
the remaining positions). -/
def nDigits : Nat → Nat → Char → Bytes
  | 0, _, _ => []
  | n + 1, d, pad =>
    if 0 < d then nDigits n (d / 10) pad ++ [digitChar d]
    else List.replicate (n + 1) pad

/-- The loop of `buffer.someDigits`, with explicit fuel so that the
definition is structurally recursive (and hence evaluates inside the
kernel).  `someDigits` supplies fuel `d + 1`, which is always enough,
so the fuel-exhausted case is unreachable. -/
def someDigitsCore : Nat → Nat → Bytes
  | 0, _ => []
  | fuel + 1, d =>
    if d / 10 = 0 then [digitChar d]
    else someDigitsCore fuel (d / 10) ++ [digitChar (d % 10)]

/-- `buffer.someDigits`: minimal-width decimal representation (the
source do-while loop prints digits into the top of `tmp` until `d`
becomes `0`, then copies them down). -/
def someDigits (d : Nat) : Bytes := someDigitsCore (d + 1) d

/-- Decimal value denoted by a digit string (used only in theorem
statements, to talk about what a formatted field represents). -/
def digitsVal (l : Bytes) : Nat :=
  l.foldl (fun a c => a * 10 + (c.toNat - 48)) 0

/-! ## Header formatting (logger source, lines 30, 67-105) -/

def severityChar : String := "DIWE"

/-- The wall-clock fields `formatHeader` reads from `time.Now()`. -/
structure GoTime where
  month : Nat
  day : Nat
  hour : Nat
  minute : Nat
  second : Nat
  nanosecond : Nat
deriving DecidableEq, Repr

/-- `Logger.formatHeader`: builds
`[MM-DD hh:mm:ss.uuuuuu L file:line] `.  Negative lines are clamped to
`0`; severities `≥ severityCount` are replaced by `SeverityInfo`.  A
negative severity survives both guards and the source then evaluates
`severityChar[s]` with a negative index, a Go panic: modelled as
`none`. -/
def formatHeader (now : GoTime) (s : Severity) (file : String) (line : Int) :
    Option Bytes :=
  let line := if line < 0 then 0 else line
  let s := if s ≥ severityCount then SeverityInfo else s
  if 0 ≤ s then
    some ('[' :: twoDigits now.month ++ '-' :: twoDigits now.day ++
      ' ' :: twoDigits now.hour ++ ':' :: twoDigits now.minute ++
      ':' :: twoDigits now.second ++
      '.' :: nDigits 6 (now.nanosecond / 1000) '0' ++
      [' ', severityChar.toList.getD s.toNat 'I', ' '] ++ file.toList ++
      ':' :: someDigits line.toNat ++ [']', ' '])
  else none

/-! ## Buffer pool (buffer.go, lines 10-84)

A `buffer` is a pooled scratch object.  Pointer identity matters for the
pool claims, so each buffer carries an `id`; the free list is the `List`
(its head is `bufferPool.freeList`, `next` links are the list spine). -/

structure buffer where
  id : Nat
  data : Bytes
deriving DecidableEq, Repr

/-- `bufferPool.getBuffer`: pop the head of the free list and `Reset()`
it; `none` means the free list was empty and the caller allocates a
fresh buffer (`b = new(buffer)`). -/
def getBuffer : List buffer → Option buffer × List buffer
  | [] => (none, [])
  | b :: rest => (some { b with data := [] }, rest)

/-- `bufferPool.putBuffer`: drop buffers whose content length is at
least 512 bytes, otherwise push onto the front of the free list. -/
def putBuffer (pool : List buffer) (b : buffer) : List buffer :=
  if b.data.length ≥ 512 then pool else b :: pool

/-! ## Rotating file sink (file.go, lines 36-81) -/

/-- `syncBuffer`: `hasFile` is `file != nil`; `fileData` is what has
reached the OS file (the banner is written straight to the file,
buffered records reach it on flush); `bufData` is what sits in the
`bufio.Writer`; `nbytes` is the running byte count. -/
structure syncBuffer where
  sev : Severity
  hasFile : Bool
  fileData : Bytes
  bufData : Bytes
  nbytes : Nat
deriving DecidableEq, Repr

/-- `syncBuffer.Flush` (via the embedded `bufio.Writer`): move the
buffered bytes into the file. -/
def flushSB (sb : syncBuffer) : syncBuffer :=
  { sb with fileData := sb.fileData ++ sb.bufData, bufData := [] }

/-- The ambient environment: whether `os.OpenFile` succeeds, the banner
text `rotateFile` stamps into a fresh file, the wall clock, and the
caller location `runtime.Caller` reports (already shortened to its last
path segment, as `header` does), plus `convDirAbs` path resolution. -/
structure Env where
  ok : Bool
  banner : Bytes
  now : GoTime
  callerFile : String
  callerLine : Int
  conv : String → String

/-- `syncBuffer.rotateFile`: flush and close any current file (the close
event, with the file's full content, is returned so the caller can
record it), then create the new file; on success write the banner and
set `nbytes` to its length, on failure (`sb.create` error) leave the
sink file-less with `nbytes = 0` and report the error (`false`). -/
def rotateFile (env : Env) (sb : syncBuffer) : syncBuffer × List Bytes × Bool :=
  let closedNow := if sb.hasFile then [sb.fileData ++ sb.bufData] else []
  if env.ok then
    ({ sb with
        hasFile := true
        fileData := env.banner
        bufData := []
        nbytes := env.banner.length }, closedNow, true)
  else
    ({ sb with
        hasFile := false
        fileData := []
        bufData := []
        nbytes := 0 }, closedNow, false)

/-- `syncBuffer.Write`: rotate first if `nbytes + len(p)` reaches the
maximum (the rotation error is discarded, exactly as in the source),
then hand `p` to the `bufio.Writer` and add its length to `nbytes`.
Also returns the list of files closed by a triggered rotation. -/
def sbWrite (env : Env) (maxSize : Nat) (sb : syncBuffer) (p : Bytes) :
    syncBuffer × List Bytes :=
  let rotated :=
    if sb.nbytes + p.length ≥ maxSize then
      let (sb', closedNow, _) := rotateFile env sb
      (sb', closedNow)
    else (sb, [])
  ({ rotated.1 with
      bufData := rotated.1.bufData ++ p
      nbytes := rotated.1.nbytes + p.length }, rotated.2)

/-! ## Logger coordinator (logger source, lines 54-268) -/

/-- `Logger`: the coordinator.  `muLocked` is the state of `l.mu`;
`file` is the four-slot sink array; `closedFiles` is the OS-side ledger
of contents of files that have been closed (see module comment). -/
structure Logger where
  muLocked : Bool
  file : Fin 4 → Option syncBuffer
  maxSize : Nat
  logDir : String
  logName : String
  severityLimit : Severity
  closedFiles : List Bytes

/-- How a call ends: normally, by a Go panic, or blocked forever on a
mutex already held (a deadlock). -/
inductive Outcome where
  | normal
  | panicked
  | blocked
deriving DecidableEq, Repr

/-- `Logger.getMaxSize`: lazily default `maxSize` to 4 MiB; the default
is written back into the logger. -/
def getMaxSize (l : Logger) : Nat × Logger :=
  if l.maxSize = 0 then (1024 * 1024 * 4, { l with maxSize := 1024 * 1024 * 4 })
  else (l.maxSize, l)

/-- `Logger.SetMaxSize` (no lock taken in the source). -/
def SetMaxSize (l : Logger) (s : Nat) : Logger := { l with maxSize := s }

/-- `Logger.SetSeverityLimit`: atomic store, no mutex. -/
def SetSeverityLimit (l : Logger) (s : Severity) : Logger :=
  { l with severityLimit := s }

/-- `Logger.resetFiles`: clear every slot.  No file is closed (the
`flushSyncWriter` interface has no `Close`), so `closedFiles` is
untouched. -/
def resetFiles (l : Logger) : Logger := { l with file := fun _ => none }

/-- `Logger.flushAll` (`l.mu` held): flush and sync every populated
sink, from `SeverityError` down to `SeverityDebug`. -/
def flushAll (l : Logger) : Logger :=
  { l with file := fun i => (l.file i).map flushSB }

/-- `Logger.Flush`: take the lock, `flushAll`, release.  Blocks forever
if the lock is already held. -/
def Flush (l : Logger) : Logger × Outcome :=
  if l.muLocked then (l, .blocked)
  else (flushAll l, .normal)

/-- `Logger.SetLogDir`: under the lock, resolve the directory with
`convDirAbs`; no-op if unchanged, otherwise flush everything, clear the
slots and store the new directory. -/
def SetLogDir (env : Env) (l : Logger) (dir : String) : Logger × Outcome :=
  if l.muLocked then (l, .blocked)
  else
    let dir := env.conv dir
    if dir = l.logDir then (l, .normal)
    else ({ resetFiles (flushAll l) with logDir := dir }, .normal)

/-- `Logger.SetLogName`: same shape as `SetLogDir`, comparing the raw
name. -/
def SetLogName (l : Logger) (name : String) : Logger × Outcome :=
  if l.muLocked then (l, .blocked)
  else
    if name = l.logName then (l, .normal)
    else ({ resetFiles (flushAll l) with logName := name }, .normal)

/-- `l.file[s]` with an `Int` index, as in `createFiles`'s loop:
`none` is the out-of-range Go panic, `some v` the slot value. -/
def fileAt (f : Fin 4 → Option syncBuffer) (s : Int) : Option (Option syncBuffer) :=
  if h : 0 ≤ s ∧ s < 4 then some (f ⟨s.toNat, by omega⟩) else none

/-- Slot assignment `l.file[s] = sb` (only reached with `s` in range). -/
def setFileAt (f : Fin 4 → Option syncBuffer) (s : Int) (sb : syncBuffer) :
    Fin 4 → Option syncBuffer :=
  if h : 0 ≤ s ∧ s < 4 then Function.update f ⟨s.toNat, by omega⟩ (some sb)
  else f

/-- Result of `createFiles`: the slot array after the loop, ending
normally, with the `rotateFile` error, or in an index panic. -/
inductive CreateRes where
  | ok (f : Fin 4 → Option syncBuffer)
  | err (f : Fin 4 → Option syncBuffer)
  | panicked (f : Fin 4 → Option syncBuffer)

/-- The loop of `Logger.createFiles`:
`for s := sev; s >= l.severityLimit && l.file[s] == nil; s--`.
`limit` is `l.severityLimit` (it cannot change while the loop runs in a
sequential execution).  Touching `l.file[s]` with `s` outside `0..3`
panics; a slot is only assigned after its sink's first `rotateFile`
succeeded.  The fuel argument makes the definition structurally
recursive; `createFiles` supplies `sev.toNat + 2`, which always
suffices because the loop starting at `s` either stops or panics no
later than `s = -1`, so the fuel-exhausted case is unreachable. -/
def createFilesLoop (env : Env) (limit : Int) :
    Nat → (Fin 4 → Option syncBuffer) → Int → CreateRes
  | 0, f, _ => .ok f
  | fuel + 1, f, s =>
    if limit ≤ s then
      match fileAt f s with
      | none => .panicked f
      | some (some _) => .ok f
      | some none =>
        let sb0 : syncBuffer :=
          { sev := s, hasFile := false, fileData := [], bufData := [], nbytes := 0 }
        let (sb, _, rok) := rotateFile env sb0
        if rok then createFilesLoop env limit fuel (setFileAt f s sb) (s - 1)
        else .err f
    else .ok f

/-- `Logger.createFiles`: run the creation loop from `sev` down to the
severity limit. -/
def createFiles (env : Env) (l : Logger) (sev : Int) : CreateRes :=
  createFilesLoop env l.severityLimit (sev.toNat + 2) l.file sev

/-- The process-wide pieces of state the write path touches besides the
logger: the `_bufferPool` free list and the `os.Stderr` stream. -/
structure World where
  logger : Logger
  pool : List buffer
  console : Bytes

/-- One cascade step `l.file[i].Write(data)`: a Go panic (`none`) when
the slot holds no sink, otherwise the sink write, with
`getMaxSize`'s lazy default written back and closed files appended to
the ledger. -/
def writeOne (env : Env) (data : Bytes) (w : World) (i : Fin 4) : Option World :=
  match w.logger.file i with
  | none => none
  | some sb =>
    let ms := (getMaxSize w.logger).1
    let l := (getMaxSize w.logger).2
    let sb' := (sbWrite env ms sb data).1
    let closedNow := (sbWrite env ms sb data).2
    some { w with
            logger := { l with
                         file := Function.update l.file i (some sb')
                         closedFiles := l.closedFiles ++ closedNow } }

/-- The `switch`/`fallthrough` cascade of `Logger.output`: write
`l.file[i]`, `l.file[i-1]`, …, `l.file[0]`, then `os.Stderr`.  A nil
sink panics, keeping the mutations already made. -/
def writeDown (env : Env) (data : Bytes) (w : World) : Nat → World × Outcome
  | 0 =>
    match writeOne env data w ⟨0, by omega⟩ with
    | none => (w, .panicked)
    | some w' => ({ w' with console := w'.console ++ data }, .normal)
  | i + 1 =>
    if h : i + 1 < 4 then
      match writeOne env data w ⟨i + 1, h⟩ with
      | none => (w, .panicked)
      | some w' => writeDown env data w' i
    else (w, .normal)

/-- `Logger.output` (lines 141-169).  Mirrors the source faithfully:
take the lock; read the record bytes; lazily create missing sinks —
and, on a creation error, `return` *without* unlocking and without
returning the buffer to the pool (there is no `defer` in the source);
otherwise cascade the write, unlock, return the buffer, and for
`SeverityError` flush everything. -/
def output (env : Env) (w : World) (s : Fin 4) (buf : buffer) : World × Outcome :=
  if w.logger.muLocked then (w, .blocked)
  else
    let l := { w.logger with muLocked := true }
    let data := buf.data
    let created : CreateRes :=
      if l.file s = none then createFiles env l s.val else .ok l.file
    match created with
    | .panicked f => ({ w with logger := { l with file := f } }, .panicked)
    | .err f => ({ w with logger := { l with file := f } }, .normal)
    | .ok f =>
      let w1 : World := { w with logger := { l with file := f } }
      let w2 := (writeDown env data w1 s.val).1
      let o := (writeDown env data w1 s.val).2
      match o with
      | .normal =>
        let w3 : World :=
          { w2 with
             logger := { w2.logger with muLocked := false }
             pool := putBuffer w2.pool buf }
        if s.val = 3 then
          ({ w3 with logger := (Flush w3.logger).1 }, .normal)
        else (w3, .normal)
      | o => (w2, o)

/-- `Logger.println` (the shared body of `Debug`/`Info`/`Warning`/
`Error`): severity gate, then borrow a scratch buffer, stamp the header,
append the message and the `Fprintln` newline, and hand off to
`output`.  A fresh allocation (`new(buffer)`) is modelled with id `0`.
The public leveled operations only ever pass severities `0..3`, hence
`s : Fin 4`. -/
def println (env : Env) (w : World) (s : Fin 4) (msg : Bytes) : World × Outcome :=
  if (s.val : Int) < w.logger.severityLimit then (w, .normal)
  else
    match formatHeader env.now s.val env.callerFile env.callerLine with
    | none => (w, .panicked)
    | some hdr =>
      let b := (getBuffer w.pool).1
      let pool' := (getBuffer w.pool).2
      let buf : buffer :=
        match b with
        | none => { id := 0, data := hdr ++ msg ++ ['\n'] }
        | some b => { b with data := hdr ++ msg ++ ['\n'] }
      output env { w with pool := pool' } s buf

/-- The operations a client can interleave on one logger. -/
inductive Op where
  | write (s : Fin 4) (msg : Bytes)
  | setSeverityLimit (v : Severity)
  | setLogDir (dir : String)
  | setLogName (name : String)
  | flush

/-- Run one operation.  State mutations made before a panic persist
(the logger is a shared object and callers may `recover`). -/
def execOp (env : Env) (w : World) : Op → World × Outcome
  | .write s msg => println env w s msg
  | .setSeverityLimit v => ({ w with logger := SetSeverityLimit w.logger v }, .normal)
  | .setLogDir dir =>
    ({ w with logger := (SetLogDir env w.logger dir).1 }, (SetLogDir env w.logger dir).2)
  | .setLogName name =>
    ({ w with logger := (SetLogName w.logger name).1 }, (SetLogName w.logger name).2)
  | .flush =>
    ({ w with logger := (Flush w.logger).1 }, (Flush w.logger).2)

/-- Run a sequence of operations; the boolean records whether every
operation completed normally (no panic, no deadlock). -/
def execList (env : Env) (w : World) : List Op → World × Bool
  | [] => (w, true)
  | op :: rest =>
    let w' := (execOp env w op).1
    let o := (execOp env w op).2
    ((execList env w' rest).1,
      (o = Outcome.normal : Bool) && (execList env w' rest).2)

/-- The zero-value `DefaultLogger`. -/
def initialLogger : Logger :=
  { muLocked := false, file := fun _ => none, maxSize := 0, logDir := "",
    logName := "", severityLimit := 0, closedFiles := [] }

/-- Fresh process state: zero-value logger, empty pool, empty console
stream. -/
def initialWorld : World :=
  { logger := initialLogger, pool := [], console := [] }

/-! ## Derived notions used in theorem statements -/

/-- The byte stream of a sink's current file: what has reached the file
plus what sits in its `bufio` buffer. -/
def sinkStream (l : Logger) (j : Fin 4) : Option Bytes :=
  (l.file j).map fun sb => sb.fileData ++ sb.bufData

/-- The populated sink slots are downward closed. -/
def DownClosed (f : Fin 4 → Option syncBuffer) : Prop :=
  ∀ i j : Fin 4, j ≤ i → f i ≠ none → f j ≠ none

/-- The no-gap property of claim C5: a populated slot `i` forces every
slot `j` with `severityLimit ≤ j ≤ i` to be populated. -/
def noGap (l : Logger) : Prop :=
  ∀ i : Fin 4, l.file i ≠ none →
    ∀ j : Fin 4, l.severityLimit ≤ (j.val : Int) → j ≤ i → l.file j ≠ none

instance (l : Logger) : Decidable (noGap l) := by
  unfold noGap; infer_instance

instance (f : Fin 4 → Option syncBuffer) : Decidable (DownClosed f) := by
  unfold DownClosed; infer_instance

/-- The buffers handed out of the free list by `n` successive
`getBuffer` calls (fresh allocations are not pool buffers and are not
listed). -/
def acquireAll (pool : List buffer) : Nat → List buffer
  | 0 => []
  | n + 1 =>
    match getBuffer pool with
    | (none, _) => []
    | (some c, rest) => c :: acquireAll rest n

/-! ## Pool lemmas -/

theorem acquireAll_mem_id (pool : List buffer) (n : Nat) (c : buffer)
    (hc : c ∈ acquireAll pool n) : c.id ∈ pool.map buffer.id := by
  induction n generalizing pool with
  | zero => simp [acquireAll] at hc
  | succ n ih =>
    match pool with
    | [] => simp [acquireAll, getBuffer] at hc
    | b :: rest =>
      simp only [acquireAll, getBuffer, List.mem_cons] at hc
      rcases hc with rfl | hc
      · simp
      · have := ih rest hc
        simp only [List.map_cons, List.mem_cons]
        exact Or.inr this

/-! ## Sink lemmas -/

theorem flushSB_stream (sb : syncBuffer) :
    (flushSB sb).fileData ++ (flushSB sb).bufData = sb.fileData ++ sb.bufData := by
  simp [flushSB]

theorem sbWrite_stream (env : Env) (ms : Nat) (sb : syncBuffer) (p : Bytes) :
    ∃ pre, (sbWrite env ms sb p).1.fileData ++ (sbWrite env ms sb p).1.bufData
      = pre ++ p := by
  by_cases hc : sb.nbytes + p.length ≥ ms
  · by_cases hok : env.ok
    · exact ⟨env.banner, by simp [sbWrite, rotateFile, hc, hok]⟩
    · exact ⟨[], by simp [sbWrite, rotateFile, hc, hok]⟩
  · exact ⟨sb.fileData ++ sb.bufData, by simp [sbWrite, hc]⟩
/-! ## Concrete fixtures used by witnesses and counterexamples -/

/-- A concrete environment where file creation succeeds. -/
def okEnv : Env :=
  { ok := true
    banner := ['H']
    now := { month := 1, day := 2, hour := 3, minute := 4, second := 5, nanosecond := 6789 }
    callerFile := "f.go"
    callerLine := 7
    conv := fun s => s }

/-- A concrete open sink with one byte in the file and one buffered. -/
def openSink : syncBuffer :=
  { sev := 1, hasFile := true, fileData := ['a'], bufData := ['b'], nbytes := 2 }

/-! ## Claim C4 -/

set_option maxRecDepth 4000 in
/-- C4: a sink write rotates exactly when the running byte count plus
the incoming record's length reaches or exceeds the configured maximum
(`(sbWrite …).2 ≠ []` says a file was closed, which happens only through
rotation); after such a rotation the running byte count equals the
banner's length plus the new write's length, and the closed previous
file holds all of its content — the bytes already in the file *and* the
bytes still buffered, i.e. it was flushed before being closed. -/
theorem c4_rotation (env : Env) (ms : Nat) (sb : syncBuffer) (p : Bytes)
    (hopen : sb.hasFile = true) (hok : env.ok = true) :
    ((sbWrite env ms sb p).2 ≠ [] ↔ ms ≤ sb.nbytes + p.length) ∧
    (ms ≤ sb.nbytes + p.length →
      (sbWrite env ms sb p).2 = [sb.fileData ++ sb.bufData] ∧
      (sbWrite env ms sb p).1.nbytes = env.banner.length + p.length ∧
      (sbWrite env ms sb p).1.fileData = env.banner ∧
      (sbWrite env ms sb p).1.bufData = p) := by
  by_cases hc : sb.nbytes + p.length ≥ ms
  · simp only [sbWrite, rotateFile, hc, if_pos, hok, hopen, if_true, ne_eq]
    simp [hc]
  · simp only [sbWrite, if_neg hc]
    constructor
    · simp
      omega
    · intro h
      omega

/-- Witness for C4 at a concrete sink and record. -/
theorem c4_rotation_witness :
    openSink.hasFile = true ∧ okEnv.ok = true ∧
    (3 : Nat) ≤ openSink.nbytes + (['x'] : Bytes).length ∧
    (sbWrite okEnv 3 openSink ['x']).2 = [openSink.fileData ++ openSink.bufData] :=
  ⟨rfl, rfl, by decide,
    ((c4_rotation okEnv 3 openSink ['x'] rfl rfl).2 (by decide)).1⟩

/-! ## Claim C9 -/

set_option maxRecDepth 4000 in
/-- C9: a single record at least as long as the maximum file size causes
exactly one rotation (exactly one file is closed by the write), and the
whole record is then written unsplit into the freshly opened file, whose
stream becomes banner-then-record; the new running count is the banner
length plus the record length, which exceeds the configured maximum by
at most one record length whenever the banner itself fits under the
maximum. -/
theorem c9_oversized_record (env : Env) (ms : Nat) (sb : syncBuffer) (p : Bytes)
    (hopen : sb.hasFile = true) (hok : env.ok = true) (hbig : ms ≤ p.length) :
    (sbWrite env ms sb p).2.length = 1 ∧
    (sbWrite env ms sb p).1.fileData ++ (sbWrite env ms sb p).1.bufData
      = env.banner ++ p ∧
    (sbWrite env ms sb p).1.nbytes = env.banner.length + p.length ∧
    (env.banner.length ≤ ms →
      (sbWrite env ms sb p).1.nbytes ≤ ms + p.length) := by
  have hc : sb.nbytes + p.length ≥ ms := by omega
  simp only [sbWrite, rotateFile, hc, if_pos, hok, hopen, if_true]
  simp [hc]

/-- Witness for C9 at a concrete oversized record. -/
theorem c9_oversized_record_witness :
    openSink.hasFile = true ∧ okEnv.ok = true ∧
    (2 : Nat) ≤ (['x', 'y'] : Bytes).length ∧
    (sbWrite okEnv 2 openSink ['x', 'y']).1.fileData ++
      (sbWrite okEnv 2 openSink ['x', 'y']).1.bufData
      = okEnv.banner ++ ['x', 'y'] :=
  ⟨rfl, rfl, by decide,
    (c9_oversized_record okEnv 2 openSink ['x', 'y'] rfl rfl (by decide)).2.1⟩

/-! ## Claim C7 -/

/-- C7: a buffer released with content length at least 512 is dropped —
the free list is unchanged, and no later sequence of acquires hands out
a buffer with its identity (provided it was not already in the list);
a buffer released below the threshold is handed out by the very next
acquire, with empty content. -/
theorem c7_buffer_pool (pool : List buffer) (b : buffer) :
    (512 ≤ b.data.length →
      putBuffer pool b = pool ∧
      (b.id ∉ pool.map buffer.id →
        ∀ n : Nat, ∀ c ∈ acquireAll (putBuffer pool b) n, c.id ≠ b.id)) ∧
    (b.data.length < 512 →
      getBuffer (putBuffer pool b) = (some { b with data := [] }, pool)) := by
  constructor
  · intro hlen
    have hput : putBuffer pool b = pool := by simp [putBuffer, hlen]
    refine ⟨hput, ?_⟩
    intro hnotin n c hc hid
    rw [hput] at hc
    exact hnotin (hid ▸ acquireAll_mem_id pool n c hc)
  · intro hlen
    have hn : ¬ (b.data.length ≥ 512) := by omega
    simp [putBuffer, hn, getBuffer]

/-- Witness for C7: a big buffer is dropped, a small one is recycled
with empty content. -/
theorem c7_buffer_pool_witness :
    ((512 : Nat) ≤ ({ id := 1, data := List.replicate 512 'z' } : buffer).data.length ∧
      putBuffer [] { id := 1, data := List.replicate 512 'z' } = []) ∧
    (({ id := 2, data := ['a', 'b', 'c'] } : buffer).data.length < 512 ∧
      getBuffer (putBuffer [] { id := 2, data := ['a', 'b', 'c'] })
        = (some { id := 2, data := [] }, [])) := by
  have h1 : (512 : Nat) ≤ ({ id := 1, data := List.replicate 512 'z' } : buffer).data.length := by
    show (512 : Nat) ≤ (List.replicate 512 'z').length
    rw [List.length_replicate]
  refine ⟨⟨h1, ?_⟩, ⟨by decide, ?_⟩⟩
  · exact ((c7_buffer_pool [] { id := 1, data := List.replicate 512 'z' }).1 h1).1
  · exact (c7_buffer_pool [] { id := 2, data := ['a', 'b', 'c'] }).2 (by decide)

/-! ## Claim C10 -/

/-- C10: `SetMaxSize 0` leaves the stored maximum at 0, but the next
`getMaxSize` treats 0 as unset, returns the 4 MiB default and writes it
back permanently, and `getMaxSize` — the only way the rotation check
reads the maximum — never returns 0. -/
theorem c10_max_size (l : Logger) :
    (SetMaxSize l 0).maxSize = 0 ∧
    (getMaxSize (SetMaxSize l 0)).1 = 4194304 ∧
    (getMaxSize (SetMaxSize l 0)).2.maxSize = 4194304 ∧
    (∀ l' : Logger, (getMaxSize l').1 ≠ 0) := by
  refine ⟨rfl, rfl, rfl, fun l' => ?_⟩
  by_cases h : l'.maxSize = 0 <;> simp [getMaxSize, h]

/-! ## Digit lemmas for the header layout (claim C6) -/

theorem digitChar_toNat (d : Nat) : (digitChar d).toNat = 48 + d % 10 := by
  have h : d % 10 < 10 := Nat.mod_lt _ (by omega)
  have aux : ∀ k, k < 10 → ((digits.toList.getD k '0').toNat = 48 + k) := by decide
  exact aux (d % 10) h

theorem digitChar_isDigit (d : Nat) : (digitChar d).isDigit = true := by
  have h : d % 10 < 10 := Nat.mod_lt _ (by omega)
  have aux : ∀ k, k < 10 → ((digits.toList.getD k '0').isDigit = true) := by decide
  exact aux (d % 10) h

theorem digitChar_ne_zero (d : Nat) (hd : d % 10 ≠ 0) : digitChar d ≠ '0' := by
  intro h
  have := congrArg Char.toNat h
  rw [digitChar_toNat] at this
  simp at this
  omega

theorem digitsVal_append_singleton (l : Bytes) (c : Char) :
    digitsVal (l ++ [c]) = digitsVal l * 10 + (c.toNat - 48) := by
  simp [digitsVal, List.foldl_append]

theorem twoDigits_length (d : Nat) : (twoDigits d).length = 2 := rfl

theorem twoDigits_val (d : Nat) : digitsVal (twoDigits d) = d % 100 := by
  simp only [twoDigits, digitsVal, List.foldl_cons, List.foldl_nil]
  rw [digitChar_toNat, digitChar_toNat]
  omega

theorem twoDigits_digits (d : Nat) : ∀ c ∈ twoDigits d, c.isDigit = true := by
  intro c hc
  simp only [twoDigits, List.mem_cons, List.mem_singleton] at hc
  rcases hc with rfl | rfl | h
  · exact digitChar_isDigit _
  · exact digitChar_isDigit _
  · simp at h

theorem digitsVal_replicate_zero (n : Nat) :
    digitsVal (List.replicate n '0') = 0 := by
  induction n with
  | zero => rfl
  | succ n ih =>
    have : List.replicate (n + 1) '0' = List.replicate n '0' ++ ['0'] := by
      rw [List.replicate_succ']
    rw [this, digitsVal_append_singleton, ih]
    decide

theorem nDigits_length (n d : Nat) (pad : Char) : (nDigits n d pad).length = n := by
  induction n generalizing d with
  | zero => rfl
  | succ n ih =>
    by_cases h : 0 < d
    · simp [nDigits, h, ih]
    · simp [nDigits, h]

theorem nDigits_val (n d : Nat) : digitsVal (nDigits n d '0') = d % 10 ^ n := by
  induction n generalizing d with
  | zero => simp [nDigits, digitsVal, Nat.mod_one]
  | succ n ih =>
    by_cases h : 0 < d
    · simp only [nDigits, h, if_true]
      rw [digitsVal_append_singleton, ih, digitChar_toNat]
      have key : d % 10 ^ (n + 1) = (d / 10 % 10 ^ n) * 10 + d % 10 := by
        have h10 : (10 : Nat) ^ (n + 1) = 10 * 10 ^ n := by ring
        rw [h10, Nat.mod_mul]
        omega
      omega
    · have hd : d = 0 := by omega
      subst hd
      simp only [nDigits, Nat.lt_irrefl, if_false]
      rw [digitsVal_replicate_zero]
      simp

theorem nDigits_zero_digits (n d : Nat) :
    ∀ c ∈ nDigits n d '0', c.isDigit = true := by
  induction n generalizing d with
  | zero => intro c hc; simp [nDigits] at hc
  | succ n ih =>
    intro c hc
    by_cases h : 0 < d
    · simp only [nDigits, h, if_true, List.mem_append, List.mem_singleton] at hc
      rcases hc with hc | rfl
      · exact ih _ c hc
      · exact digitChar_isDigit _
    · simp only [nDigits, h, if_false, List.mem_replicate] at hc
      rw [hc.2]
      decide

theorem someDigitsCore_ne_nil (fuel d : Nat) (hf : 0 < fuel) :
    someDigitsCore fuel d ≠ [] := by
  match fuel with
  | 0 => omega
  | fuel + 1 =>
    simp only [someDigitsCore]
    split
    · simp
    · simp

theorem someDigits_ne_nil (d : Nat) : someDigits d ≠ [] :=
  someDigitsCore_ne_nil (d + 1) d (by omega)

theorem someDigitsCore_val (fuel d : Nat) (hf : d < fuel) :
    digitsVal (someDigitsCore fuel d) = d := by
  induction fuel generalizing d with
  | zero => omega
  | succ fuel ih =>
    simp only [someDigitsCore]
    split
    · next h =>
      simp only [digitsVal, List.foldl_cons, List.foldl_nil]
      rw [show (0 : Nat) * 10 + ((digitChar d).toNat - 48) = (digitChar d).toNat - 48 by omega]
      rw [digitChar_toNat]
      omega
    · next h =>
      rw [digitsVal_append_singleton]
      rw [ih (d / 10) (by omega), digitChar_toNat]
      omega

theorem someDigits_val (d : Nat) : digitsVal (someDigits d) = d :=
  someDigitsCore_val (d + 1) d (by omega)

theorem someDigitsCore_digits (fuel d : Nat) :
    ∀ c ∈ someDigitsCore fuel d, c.isDigit = true := by
  induction fuel generalizing d with
  | zero => intro c hc; simp [someDigitsCore] at hc
  | succ fuel ih =>
    intro c hc
    simp only [someDigitsCore] at hc
    split at hc
    · simp only [List.mem_singleton] at hc
      rw [hc]
      exact digitChar_isDigit _
    · simp only [List.mem_append, List.mem_singleton] at hc
      rcases hc with hc | rfl
      · exact ih (d / 10) c hc
      · exact digitChar_isDigit _

theorem someDigits_digits (d : Nat) : ∀ c ∈ someDigits d, c.isDigit = true :=
  someDigitsCore_digits (d + 1) d

theorem someDigitsCore_head (fuel d : Nat) (hf : d < fuel) (hd : d ≠ 0) :
    (someDigitsCore fuel d).head? ≠ some '0' := by
  induction fuel generalizing d with
  | zero => omega
  | succ fuel ih =>
    simp only [someDigitsCore]
    split
    · next h =>
      intro hh
      simp only [List.head?_cons, Option.some_inj] at hh
      exact digitChar_ne_zero d (by omega) hh
    · next h =>
      have hne := someDigitsCore_ne_nil fuel (d / 10) (by omega)
      match hsd : someDigitsCore fuel (d / 10) with
      | [] => exact absurd hsd hne
      | a :: rest =>
        have := ih (d / 10) (by omega) (by omega)
        rw [hsd] at this
        simpa using this

theorem someDigits_head (d : Nat) (hd : d ≠ 0) :
    (someDigits d).head? ≠ some '0' :=
  someDigitsCore_head (d + 1) d (by omega) hd

/-! ## Claim C6 -/

/-- C6 counterexample: the claim quantifies over *every* severity and
promises that severities outside the enumeration are replaced by Info,
but only `s ≥ severityCount` is clamped; for the out-of-enumeration
severity `-1` the source evaluates `severityChar[-1]`, an index panic,
and no header is produced at all. -/
theorem c6_counterexample :
    formatHeader ⟨1, 2, 3, 4, 5, 6789⟩ (-1) "f.go" 7 = none := rfl

/-- C6 (amended to non-negative severities): the header has the fixed
layout `[MM-DD hh:mm:ss.uuuuuu L file:line] ` — each date/time field is
exactly two digit characters holding the value mod 100, the microsecond
field is exactly six digit characters (zero-padded, also for value 0),
the line is the minimal decimal representation (no leading zero) of the
line number with negatives clamped to 0, and the severity character is
taken from `"DIWE"` with severities at or above `severityCount` replaced
by Info's `'I'`. -/
theorem c6_header_layout (t : GoTime) (s : Severity) (file : String)
    (line : Int) (hs : 0 ≤ s) :
    ∃ mm dd hh mi sec us ln L,
      formatHeader t s file line =
        some ('[' :: mm ++ '-' :: dd ++ ' ' :: hh ++ ':' :: mi ++ ':' :: sec ++
          '.' :: us ++ [' ', L, ' '] ++ file.toList ++ ':' :: ln ++ [']', ' ']) ∧
      mm.length = 2 ∧ digitsVal mm = t.month % 100 ∧
      dd.length = 2 ∧ digitsVal dd = t.day % 100 ∧
      hh.length = 2 ∧ digitsVal hh = t.hour % 100 ∧
      mi.length = 2 ∧ digitsVal mi = t.minute % 100 ∧
      sec.length = 2 ∧ digitsVal sec = t.second % 100 ∧
      us.length = 6 ∧ digitsVal us = t.nanosecond / 1000 % 1000000 ∧
      (∀ c ∈ mm ++ dd ++ hh ++ mi ++ sec ++ us ++ ln, c.isDigit = true) ∧
      digitsVal ln = (if line < 0 then 0 else line).toNat ∧
      ln ≠ [] ∧ (ln.head? ≠ some '0' ∨ ln = ['0']) ∧
      (s < severityCount → L = severityChar.toList.getD s.toNat 'I') ∧
      (severityCount ≤ s → L = 'I') := by
  have hc : (0 : Int) ≤ (if s ≥ severityCount then SeverityInfo else s) := by
    by_cases h : s ≥ severityCount
    · rw [if_pos h]
      unfold SeverityInfo
      omega
    · rw [if_neg h]
      exact hs
  refine ⟨twoDigits t.month, twoDigits t.day, twoDigits t.hour, twoDigits t.minute,
    twoDigits t.second, nDigits 6 (t.nanosecond / 1000) '0',
    someDigits (if line < 0 then 0 else line).toNat,
    severityChar.toList.getD (if s ≥ severityCount then SeverityInfo else s).toNat 'I',
    ?_, twoDigits_length _, twoDigits_val _, twoDigits_length _, twoDigits_val _,
    twoDigits_length _, twoDigits_val _, twoDigits_length _, twoDigits_val _,
    twoDigits_length _, twoDigits_val _, nDigits_length _ _ _, ?_, ?_, ?_,
    someDigits_ne_nil _, ?_, ?_, ?_⟩
  · simp only [formatHeader]
    rw [if_pos hc]
  · rw [nDigits_val]
    norm_num
  · intro c hcm
    simp only [List.mem_append] at hcm
    rcases hcm with ((((((h | h) | h) | h) | h) | h) | h)
    · exact twoDigits_digits _ c h
    · exact twoDigits_digits _ c h
    · exact twoDigits_digits _ c h
    · exact twoDigits_digits _ c h
    · exact twoDigits_digits _ c h
    · exact nDigits_zero_digits _ _ c h
    · exact someDigits_digits _ c h
  · exact someDigits_val _
  · by_cases hz : (if line < 0 then 0 else line).toNat = 0
    · right
      rw [hz]
      rfl
    · left
      exact someDigits_head _ hz
  · intro hlt
    have hn : ¬ (s ≥ severityCount) := not_le.mpr hlt
    rw [if_neg hn]
  · intro hge
    have : s ≥ severityCount := hge
    rw [if_pos this]
    unfold SeverityInfo
    decide

/-- Witness for C6 at a concrete time, severity and line. -/
theorem c6_header_layout_witness :
    (0 : Int) ≤ 0 ∧
    (∃ mm dd hh mi sec us ln L,
      formatHeader ⟨1, 2, 3, 4, 5, 6789⟩ 0 "f.go" 7 =
        some ('[' :: mm ++ '-' :: dd ++ ' ' :: hh ++ ':' :: mi ++ ':' :: sec ++
          '.' :: us ++ [' ', L, ' '] ++ ("f.go" : String).toList ++
          ':' :: ln ++ [']', ' ']) ∧
      mm.length = 2 ∧ digitsVal mm = 1 % 100 ∧
      dd.length = 2 ∧ digitsVal dd = 2 % 100 ∧
      hh.length = 2 ∧ digitsVal hh = 3 % 100 ∧
      mi.length = 2 ∧ digitsVal mi = 4 % 100 ∧
      sec.length = 2 ∧ digitsVal sec = 5 % 100 ∧
      us.length = 6 ∧ digitsVal us = 6789 / 1000 % 1000000 ∧
      (∀ c ∈ mm ++ dd ++ hh ++ mi ++ sec ++ us ++ ln, c.isDigit = true) ∧
      digitsVal ln = (if (7 : Int) < 0 then (0 : Int) else 7).toNat ∧
      ln ≠ [] ∧ (ln.head? ≠ some '0' ∨ ln = ['0']) ∧
      ((0 : Int) < severityCount → L = severityChar.toList.getD (0 : Int).toNat 'I') ∧
      (severityCount ≤ (0 : Int) → L = 'I')) :=
  ⟨le_refl 0, c6_header_layout ⟨1, 2, 3, 4, 5, 6789⟩ 0 "f.go" 7 (le_refl 0)⟩

/-! ## Claim C8 -/

/-- Spec-side reading of "close … every sink slot": closing a sink's
file records the file's full content in the closed-files ledger.  This
definition follows the spec's words, for comparison with the source's
`resetFiles`, which only clears the slots. -/
def closeAllSpec (l : Logger) : Logger :=
  { l with
      closedFiles := l.closedFiles ++
        ((List.finRange 4).filterMap fun i =>
          (l.file i).map fun sb => sb.fileData ++ sb.bufData) }

/-- Spec-side reading of `SetLogDir` (claim C8's wording): no-op when
unchanged; otherwise flush all sinks, *close* and clear every sink slot,
then update the stored directory. -/
def SetLogDirSpec (env : Env) (l : Logger) (dir : String) : Logger × Outcome :=
  if l.muLocked then (l, .blocked)
  else
    let dir := env.conv dir
    if dir = l.logDir then (l, .normal)
    else ({ resetFiles (closeAllSpec (flushAll l)) with logDir := dir }, .normal)

/-- A logger holding one open Debug sink, used as C8's concrete input. -/
def dirLogger : Logger :=
  { initialLogger with
      file := Function.update (fun _ => none) (⟨0, by omega⟩ : Fin 4) (some openSink) }

/-- C8 counterexample: changing the directory on a logger with an open
sink does *not* behave as the claim's "flush, close and clear" — the
source's `resetFiles` clears the slots without ever closing the
underlying files (`flushSyncWriter` has no `Close`), so the closed-files
ledger stays empty where the claimed behaviour would record the closed
file. -/
theorem c8_counterexample :
    SetLogDir okEnv dirLogger "newdir" ≠ SetLogDirSpec okEnv dirLogger "newdir" := by
  intro h
  have h2 : (SetLogDir okEnv dirLogger "newdir").1.closedFiles
      = (SetLogDirSpec okEnv dirLogger "newdir").1.closedFiles := by rw [h]
  have hA : (SetLogDir okEnv dirLogger "newdir").1.closedFiles = [] := rfl
  have hB : (SetLogDirSpec okEnv dirLogger "newdir").1.closedFiles
      = [['a', 'b']] := rfl
  rw [hA, hB] at h2
  exact absurd h2 (by decide)

/-- C8 (amended): `SetLogDir`/`SetLogName` are no-ops when the new value
equals the stored one; otherwise, under the lock, they flush and sync
all sinks and clear every sink slot — without closing the underlying
files — and only then store the new value, so sinks are lazily
re-created on the next write. -/
theorem c8_set_dir_name (env : Env) (l : Logger) (dir name : String)
    (hlock : l.muLocked = false) :
    (env.conv dir = l.logDir → SetLogDir env l dir = (l, Outcome.normal)) ∧
    (env.conv dir ≠ l.logDir →
      (SetLogDir env l dir).1.file = (fun _ => none) ∧
      (SetLogDir env l dir).1.logDir = env.conv dir ∧
      (SetLogDir env l dir).1.logName = l.logName ∧
      (SetLogDir env l dir).1.closedFiles = l.closedFiles ∧
      (SetLogDir env l dir).2 = Outcome.normal) ∧
    (name = l.logName → SetLogName l name = (l, Outcome.normal)) ∧
    (name ≠ l.logName →
      (SetLogName l name).1.file = (fun _ => none) ∧
      (SetLogName l name).1.logName = name ∧
      (SetLogName l name).1.logDir = l.logDir ∧
      (SetLogName l name).1.closedFiles = l.closedFiles ∧
      (SetLogName l name).2 = Outcome.normal) := by
  refine ⟨?_, ?_, ?_, ?_⟩
  · intro h
    simp [SetLogDir, hlock, h]
  · intro h
    simp [SetLogDir, hlock, h, resetFiles, flushAll]
  · intro h
    simp [SetLogName, hlock, h]
  · intro h
    simp [SetLogName, hlock, h, resetFiles, flushAll]

/-- Witness for C8 at a concrete logger, directory and name. -/
theorem c8_set_dir_name_witness :
    dirLogger.muLocked = false ∧
    (okEnv.conv "d2" = dirLogger.logDir → SetLogDir okEnv dirLogger "d2"
      = (dirLogger, Outcome.normal)) ∧
    (okEnv.conv "d2" ≠ dirLogger.logDir →
      (SetLogDir okEnv dirLogger "d2").1.file = (fun _ => none) ∧
      (SetLogDir okEnv dirLogger "d2").1.logDir = okEnv.conv "d2" ∧
      (SetLogDir okEnv dirLogger "d2").1.logName = dirLogger.logName ∧
      (SetLogDir okEnv dirLogger "d2").1.closedFiles = dirLogger.closedFiles ∧
      (SetLogDir okEnv dirLogger "d2").2 = Outcome.normal) :=
  ⟨rfl, (c8_set_dir_name okEnv dirLogger "d2" "n2" rfl).1,
    (c8_set_dir_name okEnv dirLogger "d2" "n2" rfl).2.1⟩

/-! ## Claims C1 (counterexample), C2 and C3: concrete executions -/

/-- The environment of C3's failing input: `os.OpenFile` fails. -/
def failEnv : Env := { okEnv with ok := false }

/-- A fresh world whose severity limit has been raised to Info. -/
def infoLimitWorld : World :=
  { initialWorld with logger := { initialLogger with severityLimit := 1 } }

/-- A fresh world whose severity limit has been raised to Warning. -/
def warnLimitWorld : World :=
  { initialWorld with logger := { initialLogger with severityLimit := 2 } }

/-- A fresh world whose pool holds one free buffer. -/
def poolWorld : World :=
  { initialWorld with pool := [{ id := 5, data := [] }] }

/-- C1 counterexample: with the severity limit at Info, an Info record
passes the gate (first conjunct), yet the write panics mid-cascade on
the nil Debug sink — the record reaches neither the console stream nor
the Debug sink, contradicting "written into the sink of every severity
≤ s and to the console stream" for accepted records. -/
theorem c1_counterexample :
    ¬ ((1 : Int) < infoLimitWorld.logger.severityLimit) ∧
    (println okEnv infoLimitWorld 1 ['d']).2 = Outcome.panicked ∧
    (println okEnv infoLimitWorld 1 ['d']).1.console = [] ∧
    (println okEnv infoLimitWorld 1 ['d']).1.logger.file 0 = none := by decide

/-- C2 (code bug): with the severity limit at Warning, an Error record
passes the gate (first conjunct), `createFiles` creates sinks only down
to the limit, and the cascade then calls `Write` on the nil Info sink —
a nil-interface method call, i.e. a Go panic surfacing to the caller.
The spec requires the write path never to crash for every current
severity limit. -/
theorem c2_write_panics :
    ¬ ((3 : Int) < warnLimitWorld.logger.severityLimit) ∧
    (println okEnv warnLimitWorld 3 ['m']).2 = Outcome.panicked := by decide

/-- C3 (code bug): when lazy sink creation fails, `output` returns
without unlocking `l.mu` and without returning the scratch buffer to the
pool (the source has no `defer`): the call ends normally, but the lock
stays held, the borrowed buffer is gone from the free list, and the next
lock acquisition — here a `Flush` — deadlocks, so the logger is *not*
usable for subsequent calls. -/
theorem c3_lock_and_buffer_leak :
    (println failEnv poolWorld 0 ['m']).2 = Outcome.normal ∧
    (println failEnv poolWorld 0 ['m']).1.logger.muLocked = true ∧
    (println failEnv poolWorld 0 ['m']).1.pool = [] ∧
    (Flush (println failEnv poolWorld 0 ['m']).1.logger).2 = Outcome.blocked := by
  decide

/-! ## Lemmas about the cascade (`writeOne` / `writeDown`) -/

theorem getMaxSize_file (l : Logger) : (getMaxSize l).2.file = l.file := by
  unfold getMaxSize
  split <;> rfl

theorem getMaxSize_muLocked (l : Logger) :
    (getMaxSize l).2.muLocked = l.muLocked := by
  unfold getMaxSize
  split <;> rfl

theorem getMaxSize_severityLimit (l : Logger) :
    (getMaxSize l).2.severityLimit = l.severityLimit := by
  unfold getMaxSize
  split <;> rfl

theorem writeOne_eq_none (env : Env) (data : Bytes) (w : World) (i : Fin 4)
    (h : w.logger.file i = none) : writeOne env data w i = none := by
  simp [writeOne, h]

theorem writeOne_props (env : Env) (data : Bytes) (w : World) (i : Fin 4)
    (w' : World) (hw : writeOne env data w i = some w') :
    (∀ j : Fin 4, j ≠ i → w'.logger.file j = w.logger.file j) ∧
    (∃ pre, sinkStream w'.logger i = some (pre ++ data)) ∧
    w'.console = w.console ∧ w'.pool = w.pool ∧
    w'.logger.muLocked = w.logger.muLocked ∧
    w'.logger.severityLimit = w.logger.severityLimit := by
  cases hf : w.logger.file i with
  | none =>
    rw [writeOne_eq_none env data w i hf] at hw
    cases hw
  | some sb =>
    unfold writeOne at hw
    rw [hf] at hw
    simp only [Option.some_inj] at hw
    subst hw
    refine ⟨?_, ?_, rfl, rfl, ?_, ?_⟩
    · intro j hj
      simp only [Function.update, dif_neg hj]
      rw [getMaxSize_file]
    · obtain ⟨pre, hpre⟩ := sbWrite_stream env (getMaxSize w.logger).1 sb data
      exact ⟨pre, by simp [sinkStream, Function.update, hpre]⟩
    · simp [getMaxSize_muLocked]
    · simp [getMaxSize_severityLimit]

theorem fin_ne_of_val (j : Fin 4) (n : Nat) (h : n < 4) (hv : j.val ≠ n) :
    j ≠ ⟨n, h⟩ :=
  fun he => hv (by rw [he])

theorem writeDown_spec (env : Env) (data : Bytes) :
    ∀ (i : Nat), i < 4 → ∀ (w : World),
    (∀ j : Fin 4, j.val ≤ i → w.logger.file j ≠ none) →
    (writeDown env data w i).2 = Outcome.normal ∧
    (writeDown env data w i).1.console = w.console ++ data ∧
    (writeDown env data w i).1.pool = w.pool ∧
    (writeDown env data w i).1.logger.muLocked = w.logger.muLocked ∧
    (writeDown env data w i).1.logger.severityLimit = w.logger.severityLimit ∧
    (∀ j : Fin 4, j.val ≤ i →
      ∃ pre, sinkStream (writeDown env data w i).1.logger j = some (pre ++ data)) ∧
    (∀ j : Fin 4, i < j.val →
      (writeDown env data w i).1.logger.file j = w.logger.file j) := by
  intro i
  induction i with
  | zero =>
    intro _ w hpop
    have h04 : (0 : Nat) < 4 := by omega
    have h0 : w.logger.file ⟨0, h04⟩ ≠ none := hpop ⟨0, h04⟩ (Nat.le_refl 0)
    cases hf : w.logger.file ⟨0, h04⟩ with
    | none => exact absurd hf h0
    | some sb =>
      cases hw : writeOne env data w ⟨0, h04⟩ with
      | none =>
        unfold writeOne at hw
        rw [hf] at hw
        cases hw
      | some w' =>
        obtain ⟨hfile, hstream, hcons, hpool, hmu, hsev⟩ :=
          writeOne_props env data w ⟨0, h04⟩ w' hw
        have hred : writeDown env data w 0
            = ({ w' with console := w'.console ++ data }, Outcome.normal) := by
          simp only [writeDown, hw]
        rw [hred]
        refine ⟨rfl, by rw [hcons], hpool, hmu, hsev, ?_, ?_⟩
        · intro j hj
          have hjeq : j = ⟨0, h04⟩ := Fin.ext (show j.val = 0 by omega)
          rw [hjeq]
          exact hstream
        · intro j hj
          exact hfile j (fin_ne_of_val j 0 h04 (by omega))
  | succ i ih =>
    intro hi4 w hpop
    have hi1 : i + 1 < 4 := hi4
    have hsl : w.logger.file ⟨i + 1, hi1⟩ ≠ none :=
      hpop ⟨i + 1, hi1⟩ (Nat.le_refl (i + 1))
    cases hf : w.logger.file ⟨i + 1, hi1⟩ with
    | none => exact absurd hf hsl
    | some sb =>
      cases hw : writeOne env data w ⟨i + 1, hi1⟩ with
      | none =>
        unfold writeOne at hw
        rw [hf] at hw
        cases hw
      | some w' =>
        obtain ⟨hfile, hstream, hcons, hpool, hmu, hsev⟩ :=
          writeOne_props env data w ⟨i + 1, hi1⟩ w' hw
        have hred : writeDown env data w (i + 1) = writeDown env data w' i := by
          simp only [writeDown, hi1, dif_pos, hw]
        have hpop' : ∀ j : Fin 4, j.val ≤ i → w'.logger.file j ≠ none := by
          intro j hj
          rw [hfile j (fin_ne_of_val j (i + 1) hi1 (by omega))]
          exact hpop j (by omega)
        obtain ⟨ho, hc, hp, hm, hs, hst, hup⟩ := ih (by omega) w' hpop'
        rw [hred]
        refine ⟨ho, by rw [hc, hcons], by rw [hp, hpool], by rw [hm, hmu],
          by rw [hs, hsev], ?_, ?_⟩
        · intro j hj
          by_cases hj1 : j.val ≤ i
          · exact hst j hj1
          · have hjeq : j = ⟨i + 1, hi1⟩ := Fin.ext (show j.val = i + 1 by omega)
            obtain ⟨pre, hpre⟩ := hstream
            have hpre' : sinkStream w'.logger j = some (pre ++ data) := by
              rw [hjeq]
              exact hpre
            have hfj : (writeDown env data w' i).1.logger.file j
                = w'.logger.file j := hup j (by omega)
            refine ⟨pre, ?_⟩
            unfold sinkStream at hpre' ⊢
            rw [hfj]
            exact hpre'
        · intro j hj
          rw [hup j (by omega)]
          exact hfile j (fin_ne_of_val j (i + 1) hi1 (by omega))

theorem writeDown_normal (env : Env) (data : Bytes) :
    ∀ (i : Nat), i < 4 → ∀ (w : World),
    (writeDown env data w i).2 = Outcome.normal →
    ∀ j : Fin 4, j.val ≤ i → w.logger.file j ≠ none := by
  intro i
  induction i with
  | zero =>
    intro _ w hnorm j hj
    have h04 : (0 : Nat) < 4 := by omega
    have hjeq : j = ⟨0, h04⟩ := Fin.ext (show j.val = 0 by omega)
    cases hw : writeOne env data w ⟨0, h04⟩ with
    | none =>
      have : (writeDown env data w 0).2 = Outcome.panicked := by
        simp only [writeDown, hw]
      rw [this] at hnorm
      cases hnorm
    | some w' =>
      rw [hjeq]
      intro hf
      rw [writeOne_eq_none env data w ⟨0, h04⟩ hf] at hw
      cases hw
  | succ i ih =>
    intro hi4 w hnorm j hj
    have hi1 : i + 1 < 4 := hi4
    cases hw : writeOne env data w ⟨i + 1, hi1⟩ with
    | none =>
      have : (writeDown env data w (i + 1)).2 = Outcome.panicked := by
        simp only [writeDown, hi1, dif_pos, hw]
      rw [this] at hnorm
      cases hnorm
    | some w' =>
      have hred : writeDown env data w (i + 1) = writeDown env data w' i := by
        simp only [writeDown, hi1, dif_pos, hw]
      obtain ⟨hfile, _, _, _, _, _⟩ := writeOne_props env data w ⟨i + 1, hi1⟩ w' hw
      by_cases hj1 : j.val ≤ i
      · have := ih (by omega) w' (by rw [← hred]; exact hnorm) j hj1
        rw [hfile j (fin_ne_of_val j (i + 1) hi1 (by omega))] at this
        exact this
      · have hjeq : j = ⟨i + 1, hi1⟩ := Fin.ext (show j.val = i + 1 by omega)
        rw [hjeq]
        intro hf
        rw [writeOne_eq_none env data w ⟨i + 1, hi1⟩ hf] at hw
        cases hw

/-! ## Lemmas about `createFiles` -/

theorem setFileAt_self (f : Fin 4 → Option syncBuffer) (s : Int) (sb : syncBuffer)
    (h : 0 ≤ s ∧ s < 4) : setFileAt f s sb ⟨s.toNat, by omega⟩ = some sb := by
  simp [setFileAt, h]

theorem setFileAt_other (f : Fin 4 → Option syncBuffer) (s : Int) (sb : syncBuffer)
    (j : Fin 4) (h : (j.val : Int) ≠ s) : setFileAt f s sb j = f j := by
  unfold setFileAt
  split
  · next hr =>
    have : j ≠ (⟨s.toNat, by omega⟩ : Fin 4) := by
      apply fin_ne_of_val
      omega
    simp [Function.update, this]
  · rfl

theorem rotateFile_rok (env : Env) (sb : syncBuffer) :
    (rotateFile env sb).2.2 = env.ok := by
  unfold rotateFile
  cases env.ok <;> simp

/-- The sink produced by a successful rotation. -/
def freshSink (env : Env) (s : Int) : syncBuffer :=
  { sev := s
    hasFile := true
    fileData := env.banner
    bufData := []
    nbytes := env.banner.length }

theorem rotateFile_fresh (env : Env) (s : Int) (hok : env.ok = true) :
    (rotateFile env
      { sev := s, hasFile := false, fileData := [], bufData := [], nbytes := 0 }).1
      = freshSink env s := by
  simp [rotateFile, hok, freshSink]

theorem createFilesLoop_ok_props (env : Env) (limit : Int) :
    ∀ (fuel : Nat) (f : Fin 4 → Option syncBuffer) (s : Int)
      (f' : Fin 4 → Option syncBuffer),
    createFilesLoop env limit fuel f s = CreateRes.ok f' →
    (∀ j : Fin 4, f j ≠ none → f' j ≠ none) ∧
    (∀ j : Fin 4, s < (j.val : Int) → f' j = f j) := by
  intro fuel
  induction fuel with
  | zero =>
    intro f s f' h
    simp only [createFilesLoop] at h
    cases h
    exact ⟨fun j hj => hj, fun j _ => rfl⟩
  | succ fuel ih =>
    intro f s f' h
    simp only [createFilesLoop] at h
    by_cases hls : limit ≤ s
    · rw [if_pos hls] at h
      cases hfa : fileAt f s with
      | none =>
        rw [hfa] at h
        cases h
      | some slot =>
        cases slot with
        | some sb =>
          rw [hfa] at h
          cases h
          exact ⟨fun j hj => hj, fun j _ => rfl⟩
        | none =>
          rw [hfa] at h
          have hrange : 0 ≤ s ∧ s < 4 := by
            by_contra hc
            simp [fileAt, hc] at hfa
          rw [rotateFile_rok] at h
          cases hok : env.ok with
          | false =>
            rw [hok] at h
            simp only [Bool.false_eq_true, if_false] at h
            cases h
          | true =>
            rw [hok] at h
            simp only [if_true] at h
            rw [rotateFile_fresh env s hok] at h
            obtain ⟨hmono, habove⟩ := ih _ _ _ h
            constructor
            · intro j hj
              apply hmono
              by_cases hjs : (j.val : Int) = s
              · have hje : j = (⟨s.toNat, by omega⟩ : Fin 4) :=
                  Fin.ext (show j.val = s.toNat by omega)
                rw [hje, setFileAt_self _ _ _ hrange]
                simp
              · rw [setFileAt_other _ _ _ j hjs]
                exact hj
            · intro j hj
              rw [habove j (by omega)]
              exact setFileAt_other _ _ _ j (by omega)
    · rw [if_neg hls] at h
      cases h
      exact ⟨fun j hj => hj, fun j _ => rfl⟩

theorem createFilesLoop_not_err (env : Env) (hok : env.ok = true) (limit : Int) :
    ∀ (fuel : Nat) (f : Fin 4 → Option syncBuffer) (s : Int)
      (f' : Fin 4 → Option syncBuffer),
    createFilesLoop env limit fuel f s ≠ CreateRes.err f' := by
  intro fuel
  induction fuel with
  | zero =>
    intro f s f' h
    simp only [createFilesLoop] at h
    cases h
  | succ fuel ih =>
    intro f s f' h
    simp only [createFilesLoop] at h
    by_cases hls : limit ≤ s
    · rw [if_pos hls] at h
      cases hfa : fileAt f s with
      | none => rw [hfa] at h; cases h
      | some slot =>
        cases slot with
        | some sb => rw [hfa] at h; cases h
        | none =>
          rw [hfa, rotateFile_rok, hok] at h
          simp only [if_true] at h
          exact ih _ _ _ h
    · rw [if_neg hls] at h
      cases h

/-- Downward closedness of the populated slots, restricted to slots at
or below severity `s`. -/
def DownClosedUpTo (s : Int) (f : Fin 4 → Option syncBuffer) : Prop :=
  ∀ i j : Fin 4, j ≤ i → (i.val : Int) ≤ s → f i ≠ none → f j ≠ none

theorem createFilesLoop_limit0 (env : Env) (hok : env.ok = true) :
    ∀ (fuel : Nat) (f : Fin 4 → Option syncBuffer) (s : Int),
    s < 4 → (0 ≤ s → s + 2 ≤ (fuel : Int)) → DownClosedUpTo s f →
    ∃ f', createFilesLoop env 0 fuel f s = CreateRes.ok f' ∧
      (∀ j : Fin 4, (j.val : Int) ≤ s → f' j ≠ none) ∧
      (∀ j : Fin 4, s < (j.val : Int) → f' j = f j) := by
  intro fuel
  induction fuel with
  | zero =>
    intro f s _ hfuel _
    have hs0 : s < 0 := by
      by_contra hc
      have := hfuel (by omega)
      simp at this
      omega
    refine ⟨f, by simp [createFilesLoop], ?_, fun j _ => rfl⟩
    intro j hj
    have : (0 : Int) ≤ (j.val : Int) := by positivity
    omega
  | succ fuel ih =>
    intro f s hs4 hfuel hdc
    by_cases hls : (0 : Int) ≤ s
    · have hrange : 0 ≤ s ∧ s < 4 := ⟨hls, hs4⟩
      have hfa : fileAt f s = some (f ⟨s.toNat, by omega⟩) := by
        simp [fileAt, hrange]
      cases hslot : f ⟨s.toNat, by omega⟩ with
      | some sb =>
        refine ⟨f, ?_, ?_, fun j _ => rfl⟩
        · simp only [createFilesLoop, if_pos hls, hfa, hslot]
        · intro j hj
          apply hdc ⟨s.toNat, by omega⟩ j
          · show j.val ≤ s.toNat
            omega
          · show ((s.toNat : Nat) : Int) ≤ s
            omega
          · rw [hslot]
            simp
      | none =>
        have hred : createFilesLoop env 0 (fuel + 1) f s
            = createFilesLoop env 0 fuel
                (setFileAt f s (freshSink env s)) (s - 1) := by
          simp only [createFilesLoop, if_pos hls, hfa, hslot, rotateFile_rok, hok,
            if_true, rotateFile_fresh env s hok]
        have hdc' : DownClosedUpTo (s - 1) (setFileAt f s (freshSink env s)) := by
          intro i j hji hi hfi
          rw [setFileAt_other _ _ _ i (by omega)] at hfi
          rw [setFileAt_other _ _ _ j (by
            have : j.val ≤ i.val := hji
            omega)]
          exact hdc i j hji (by omega) hfi
        obtain ⟨f', heq, hpop, hup⟩ := ih (setFileAt f s (freshSink env s)) (s - 1)
          (by omega) (by intro h; omega) hdc'
        refine ⟨f', by rw [hred, heq], ?_, ?_⟩
        · intro j hj
          by_cases hj1 : (j.val : Int) ≤ s - 1
          · exact hpop j hj1
          · have hje : j = (⟨s.toNat, by omega⟩ : Fin 4) :=
              Fin.ext (show j.val = s.toNat by omega)
            rw [hup j (by omega), hje, setFileAt_self _ _ _ hrange]
            simp
        · intro j hj
          rw [hup j (by omega)]
          exact setFileAt_other _ _ _ j (by omega)
    · refine ⟨f, ?_, ?_, fun j _ => rfl⟩
      · simp only [createFilesLoop, if_neg hls]
      · intro j hj
        have : (0 : Int) ≤ (j.val : Int) := by positivity
        omega

theorem sinkStream_flushAll (l : Logger) (j : Fin 4) :
    sinkStream (flushAll l) j = sinkStream l j := by
  unfold sinkStream flushAll
  cases h : l.file j <;> simp [h, flushSB]

/-! ## Claim C1 (amended theorem) -/

set_option maxHeartbeats 1000000 in
/-- C1 (amended to require the severity limit to be Debug): with
`severityLimit = SeverityDebug` — the zero value, under which every
sink down to Debug exists or is created — an accepted record's bytes
are appended to the stream of every sink of severity `≤ s` and to the
console stream, the call completes normally, and every sink of severity
`> s` is left untouched.  (With a limit above Debug the cascade panics
on a nil sink: see the counterexample.) -/
theorem c1_cascade (env : Env) (w : World) (s : Fin 4) (buf : buffer)
    (hok : env.ok = true) (hlock : w.logger.muLocked = false)
    (hlim : w.logger.severityLimit = 0) (hdc : DownClosed w.logger.file) :
    (output env w s buf).2 = Outcome.normal ∧
    (output env w s buf).1.console = w.console ++ buf.data ∧
    (∀ j : Fin 4, j ≤ s →
      ∃ pre, sinkStream (output env w s buf).1.logger j = some (pre ++ buf.data)) ∧
    (∀ j : Fin 4, s < j →
      (output env w s buf).1.logger.file j = w.logger.file j) := by
  -- properties of the slot array after lazy creation
  obtain ⟨f, hcr, hpop, hup⟩ :
      ∃ f, (if w.logger.file s = none
          then createFiles env { w.logger with muLocked := true } (s.val : Int)
          else CreateRes.ok w.logger.file) = CreateRes.ok f ∧
        (∀ j : Fin 4, j.val ≤ s.val → f j ≠ none) ∧
        (∀ j : Fin 4, s.val < j.val → f j = w.logger.file j) := by
    cases hslot : w.logger.file s with
    | some sb =>
      refine ⟨w.logger.file, by rw [if_neg (by simp [hslot])], ?_, fun j _ => rfl⟩
      intro j hj
      exact hdc s j (by exact hj) (by simp [hslot])
    | none =>
      have hfin : ((s.val : Int)).toNat = s.val := Int.toNat_natCast s.val
      obtain ⟨f, heq, hpop, hup⟩ := createFilesLoop_limit0 env hok (s.val + 2)
        w.logger.file (s.val : Int) (by exact_mod_cast s.isLt)
        (fun _ => by push_cast; omega)
        (fun i j hji _ hfi => hdc i j hji hfi)
      refine ⟨f, ?_, ?_, ?_⟩
      · rw [if_pos rfl]
        show createFilesLoop env w.logger.severityLimit (s.val + 2)
          w.logger.file (s.val : Int) = CreateRes.ok f
        rw [hlim]
        exact heq
      · intro j hj
        exact hpop j (by exact_mod_cast hj)
      · intro j hj
        exact hup j (by exact_mod_cast hj)
  have hpop1 : ∀ j : Fin 4, j.val ≤ s.val →
      ({ logger := { w.logger with muLocked := true, file := f },
         pool := w.pool, console := w.console } : World).logger.file j ≠ none :=
    fun j hj => hpop j hj
  obtain ⟨ho, hc, hp, hm, hsv, hst, hup2⟩ := writeDown_spec env buf.data s.val s.isLt
    { logger := { w.logger with muLocked := true, file := f },
      pool := w.pool, console := w.console } hpop1
  simp only [output, hlock, Bool.false_eq_true, if_false]
  rw [hcr]
  simp only []
  rw [ho]
  simp only []
  by_cases hs3 : s.val = 3
  · rw [if_pos hs3]
    refine ⟨rfl, ?_, ?_, ?_⟩
    · simp only []
      rw [hc]
    · intro j hj
      obtain ⟨pre, hpre⟩ := hst j hj
      refine ⟨pre, ?_⟩
      have hFl : Flush { (writeDown env buf.data
          { logger := { w.logger with muLocked := true, file := f },
            pool := w.pool, console := w.console } s.val).1.logger
            with muLocked := false }
          = (flushAll { (writeDown env buf.data
              { logger := { w.logger with muLocked := true, file := f },
                pool := w.pool, console := w.console } s.val).1.logger
              with muLocked := false }, Outcome.normal) := by
        unfold Flush
        rfl
      simp only [hFl, sinkStream_flushAll]
      unfold sinkStream at hpre ⊢
      exact hpre
    · intro j hj
      have : j.val ≤ 3 := by omega
      have : s.val < j.val := hj
      omega
  · rw [if_neg hs3]
    refine ⟨rfl, by rw [hc], ?_, ?_⟩
    · intro j hj
      exact hst j hj
    · intro j hj
      rw [hup2 j hj]
      exact hup j hj

/-- Witness for C1: an accepted Warning record on a fresh logger. -/
theorem c1_cascade_witness :
    okEnv.ok = true ∧ initialWorld.logger.muLocked = false ∧
    initialWorld.logger.severityLimit = 0 ∧ DownClosed initialWorld.logger.file ∧
    (output okEnv initialWorld 2 { id := 9, data := ['r'] }).2 = Outcome.normal ∧
    (output okEnv initialWorld 2 { id := 9, data := ['r'] }).1.console
      = initialWorld.console ++ ({ id := 9, data := ['r'] } : buffer).data := by
  refine ⟨rfl, rfl, rfl, by decide, ?_, ?_⟩
  · exact (c1_cascade okEnv initialWorld 2 { id := 9, data := ['r'] } rfl rfl rfl
      (by decide)).1
  · exact (c1_cascade okEnv initialWorld 2 { id := 9, data := ['r'] } rfl rfl rfl
      (by decide)).2.1

/-! ## Claim C5: the no-gap invariant -/

/-- The execution invariant for panic-free runs: populated slots are
downward closed and the coordinator's mutex is free. -/
def WInv (w : World) : Prop :=
  DownClosed w.logger.file ∧ w.logger.muLocked = false

theorem DownClosed_flushAll (l : Logger) (h : DownClosed l.file) :
    DownClosed (flushAll l).file := by
  intro i j hji hi
  have hi' : l.file i ≠ none := by
    intro he
    simp [flushAll, he] at hi
  have hj' := h i j hji hi'
  cases hf : l.file j with
  | none => exact absurd hf hj'
  | some sb => simp [flushAll, hf]

theorem output_inv (env : Env) (w : World) (s : Fin 4) (buf : buffer)
    (hok : env.ok = true) (hinv : WInv w)
    (hnorm : (output env w s buf).2 = Outcome.normal) :
    WInv (output env w s buf).1 := by
  obtain ⟨hdc, hlock⟩ := hinv
  -- the lazily created slot array
  obtain ⟨f, hcr, hmono, hupf⟩ :
      ∃ f, (if w.logger.file s = none
          then createFiles env { w.logger with muLocked := true } (s.val : Int)
          else CreateRes.ok w.logger.file) = CreateRes.ok f ∧
        (∀ j : Fin 4, w.logger.file j ≠ none → f j ≠ none) ∧
        (∀ j : Fin 4, s.val < j.val → f j = w.logger.file j) := by
    cases hslot : w.logger.file s with
    | some sb =>
      exact ⟨w.logger.file, by rw [if_neg (by simp [hslot])],
        fun j hj => hj, fun j _ => rfl⟩
    | none =>
      rcases hcf : createFiles env { w.logger with muLocked := true } (s.val : Int)
        with f | f | f
      · have hcf' : createFilesLoop env w.logger.severityLimit (s.val + 2)
            w.logger.file (s.val : Int) = CreateRes.ok f := hcf
        obtain ⟨hmono, habove⟩ :=
          createFilesLoop_ok_props env w.logger.severityLimit _ _ _ _ hcf'
        refine ⟨f, by rw [if_pos rfl], hmono, ?_⟩
        intro j hj
        exact habove j (by exact_mod_cast hj)
      · have hcf' : createFilesLoop env w.logger.severityLimit (s.val + 2)
            w.logger.file (s.val : Int) = CreateRes.err f := hcf
        exact absurd hcf' (createFilesLoop_not_err env hok _ _ _ _ _)
      · exfalso
        have hpan : (output env w s buf).2 = Outcome.panicked := by
          simp only [output, hlock, Bool.false_eq_true, if_false]
          rw [if_pos hslot, hcf]
        rw [hpan] at hnorm
        cases hnorm
  cases hwd : (writeDown env buf.data
      { logger := { w.logger with muLocked := true, file := f },
        pool := w.pool, console := w.console } s.val).2 with
  | panicked =>
    exfalso
    have hpan : (output env w s buf).2 = Outcome.panicked := by
      simp only [output, hlock, Bool.false_eq_true, if_false]
      rw [hcr]
      simp only []
      rw [hwd]
    rw [hpan] at hnorm
    cases hnorm
  | blocked =>
    exfalso
    have hpan : (output env w s buf).2 = Outcome.blocked := by
      simp only [output, hlock, Bool.false_eq_true, if_false]
      rw [hcr]
      simp only []
      rw [hwd]
    rw [hpan] at hnorm
    cases hnorm
  | normal =>
    have hpopW1 := writeDown_normal env buf.data s.val s.isLt
      { logger := { w.logger with muLocked := true, file := f },
        pool := w.pool, console := w.console } hwd
    obtain ⟨ho, hc, hp, hm, hsv, hst, hup2⟩ := writeDown_spec env buf.data s.val s.isLt
      { logger := { w.logger with muLocked := true, file := f },
        pool := w.pool, console := w.console } hpopW1
    have hdc2 : DownClosed (writeDown env buf.data
        { logger := { w.logger with muLocked := true, file := f },
          pool := w.pool, console := w.console } s.val).1.logger.file := by
      intro i j hji hi
      by_cases hjs : j.val ≤ s.val
      · obtain ⟨pre, hpre⟩ := hst j hjs
        intro he
        unfold sinkStream at hpre
        rw [he] at hpre
        cases hpre
      · have his : s.val < i.val := by
          have : j.val ≤ i.val := hji
          omega
        rw [hup2 i his] at hi
        rw [hup2 j (by omega)]
        have hi' : w.logger.file i ≠ none := by
          rw [← hupf i (by omega)]
          exact hi
        have := hdc i j hji hi'
        rw [← hupf j (by omega)] at this
        exact this
    by_cases hs3 : s.val = 3
    · have hout : (output env w s buf).1
          = { (writeDown env buf.data
                { logger := { w.logger with muLocked := true, file := f },
                  pool := w.pool, console := w.console } s.val).1 with
              logger := flushAll { (writeDown env buf.data
                  { logger := { w.logger with muLocked := true, file := f },
                    pool := w.pool, console := w.console } s.val).1.logger with
                  muLocked := false }
              pool := putBuffer (writeDown env buf.data
                  { logger := { w.logger with muLocked := true, file := f },
                    pool := w.pool, console := w.console } s.val).1.pool buf } := by
        simp only [output, hlock, Bool.false_eq_true, if_false]
        rw [hcr]
        simp only []
        rw [hwd]
        simp only [hs3, if_pos]
        rfl
      rw [hout]
      constructor
      · exact DownClosed_flushAll _ hdc2
      · simp [flushAll]
    · have hout : (output env w s buf).1
          = { (writeDown env buf.data
                { logger := { w.logger with muLocked := true, file := f },
                  pool := w.pool, console := w.console } s.val).1 with
              logger := { (writeDown env buf.data
                  { logger := { w.logger with muLocked := true, file := f },
                    pool := w.pool, console := w.console } s.val).1.logger with
                  muLocked := false }
              pool := putBuffer (writeDown env buf.data
                  { logger := { w.logger with muLocked := true, file := f },
                    pool := w.pool, console := w.console } s.val).1.pool buf } := by
        simp only [output, hlock, Bool.false_eq_true, if_false]
        rw [hcr]
        simp only []
        rw [hwd]
        simp only [hs3, if_neg]
        rfl
      rw [hout]
      exact ⟨hdc2, rfl⟩

theorem execOp_inv (env : Env) (hok : env.ok = true) (w : World) (op : Op)
    (hinv : WInv w) (hnorm : (execOp env w op).2 = Outcome.normal) :
    WInv (execOp env w op).1 := by
  cases op with
  | write s msg =>
    have hnorm' : (println env w s msg).2 = Outcome.normal := hnorm
    show WInv (println env w s msg).1
    unfold println at hnorm' ⊢
    by_cases hgate : (s.val : Int) < w.logger.severityLimit
    · rw [if_pos hgate] at hnorm' ⊢
      exact hinv
    · rw [if_neg hgate] at hnorm' ⊢
      cases hh : formatHeader env.now (s.val : Int) env.callerFile env.callerLine with
      | none =>
        rw [hh] at hnorm'
        simp at hnorm'
      | some hdr =>
        rw [hh] at hnorm'
        exact output_inv env _ s _ hok hinv hnorm'
  | setSeverityLimit v => exact hinv
  | setLogDir dir =>
    show WInv ({ w with logger := (SetLogDir env w.logger dir).1 })
    unfold SetLogDir
    simp only [hinv.2, Bool.false_eq_true, if_false]
    by_cases hd : env.conv dir = w.logger.logDir
    · rw [if_pos hd]
      exact hinv
    · rw [if_neg hd]
      exact ⟨fun i j _ hi => absurd rfl hi, hinv.2⟩
  | setLogName name =>
    show WInv ({ w with logger := (SetLogName w.logger name).1 })
    unfold SetLogName
    simp only [hinv.2, Bool.false_eq_true, if_false]
    by_cases hd : name = w.logger.logName
    · rw [if_pos hd]
      exact hinv
    · rw [if_neg hd]
      exact ⟨fun i j _ hi => absurd rfl hi, hinv.2⟩
  | flush =>
    show WInv ({ w with logger := (Flush w.logger).1 })
    unfold Flush
    simp only [hinv.2, Bool.false_eq_true, if_false]
    exact ⟨DownClosed_flushAll _ hinv.1, hinv.2⟩

theorem execList_inv (env : Env) (hok : env.ok = true) :
    ∀ (ops : List Op) (w : World), WInv w →
    (execList env w ops).2 = true → WInv (execList env w ops).1 := by
  intro ops
  induction ops with
  | nil =>
    intro w hinv _
    exact hinv
  | cons op rest ih =>
    intro w hinv hflag
    simp only [execList] at hflag ⊢
    rw [Bool.and_eq_true] at hflag
    obtain ⟨h1, h2⟩ := hflag
    have hnorm : (execOp env w op).2 = Outcome.normal := of_decide_eq_true h1
    exact ih _ (execOp_inv env hok w op hinv hnorm) h2

/-- C5 counterexample: raise the limit to Error, write one Error record
(the cascade panics after populating only slot 3 — mutations before the
panic persist on the shared logger), then lower the limit back to
Debug: slot 3 is populated while slots 0-2 are empty, a gap. -/
theorem c5_counterexample :
    ¬ noGap (execList okEnv initialWorld
      [Op.setSeverityLimit 3, Op.write 3 ['x'], Op.setSeverityLimit 0]).1.logger := by
  decide

/-- C5 (amended to panic-free runs): after any sequence of write,
SetSeverityLimit, SetLogDir/SetLogName and flush operations in which
every operation completes normally (no panic, no deadlock) and file
creation succeeds, the sink array has no gaps: a populated slot `i`
forces every slot `j` with `severityLimit ≤ j ≤ i` to be populated.
(A write that panics mid-cascade — possible once the limit is above
Debug — can leave a populated slot above empty ones after the limit is
lowered again: see the counterexample.) -/
theorem c5_no_gap (env : Env) (ops : List Op) (hok : env.ok = true)
    (hflag : (execList env initialWorld ops).2 = true) :
    noGap (execList env initialWorld ops).1.logger := by
  have hinv := execList_inv env hok ops initialWorld
    ⟨fun i j _ hi => absurd rfl hi, rfl⟩ hflag
  intro i hi j _ hji
  exact hinv.1 i j hji hi

/-- Witness for C5 on a concrete panic-free run. -/
theorem c5_no_gap_witness :
    okEnv.ok = true ∧
    (execList okEnv initialWorld [Op.write 1 ['a']]).2 = true ∧
    noGap (execList okEnv initialWorld [Op.write 1 ['a']]).1.logger :=
  ⟨rfl, by decide, c5_no_gap okEnv [Op.write 1 ['a']] rfl (by decide)⟩
